import Mathlib

/-!
Verification of the netplan error-handling core (src/error.c) against its
specification.  The C functions are shallowly embedded: the tokenizer scan
buffer becomes a list of byte values (`List Nat`, newline = 10, NUL = 0),
pointers become natural-number indices measured from `buffer.start`, file
streams become lists of lines, and `g_set_error` results become a `GErr`
record holding the domain, code and formatted message.
-/

set_option maxHeartbeats 1000000

namespace NetplanErrorC

/-- GError domains used in src/error.c: NETPLAN_PARSER_ERROR and
NETPLAN_VALIDATION_ERROR. -/
inductive ErrorDomain where
  | parserError
  | validationError
deriving DecidableEq, Repr

/-- Error subcodes used in src/error.c. -/
inductive ErrorCode where
  | invalidYaml
  | invalidConfig
  | configValidation
  | configGeneric
deriving DecidableEq, Repr

/-- A populated GError: domain, subcode, formatted message. -/
structure GErr where
  domain : ErrorDomain
  code : ErrorCode
  message : String
deriving DecidableEq, Repr

/-- write_error_marker (src/error.c:34-43): append `column` spaces, then a
caret.  The C loop guard `column > 0 && i < column` appends max(column,0)
spaces; the yaml mark columns are unsigned, modelled as Nat. -/
def write_error_marker (column : Nat) : String :=
  String.mk (List.replicate column ' ') ++ "^"

/-! ## Buffer line locator: get_parser_error_context (src/error.c:75-107)

The scan buffer is `buf : List Nat` with `buffer.start` at index 0,
`buffer.last` at index `lastIdx` (the last byte the forward loop may
inspect), and `buffer.pointer` at index `ptr`. -/

/-- The backward loop (src/error.c:84-90): starting from `current = ptr`,
decrement while `current > start`, stopping at the first newline found;
returns the index of that newline, or none if the loop exhausts the
buffer without finding one. -/
def findNlBack (buf : List Nat) : Nat → Option Nat
  | 0 => none
  | c + 1 => if buf.getD c 0 = 10 then some c else findNlBack buf c

/-- The value of `line` after the backward loop and the
`if (current <= parser->buffer.start) line = parser->buffer.start;`
check (src/error.c:91-92).  Note: when the newline is found at index 0,
`current` equals `start` after the break, so the check fires and resets
`line` to the buffer start (index 0), not to index 1. -/
def lineStart (buf : List Nat) (ptr : Nat) : Nat :=
  match findNlBack buf ptr with
  | some c => if c = 0 then 0 else c + 1
  | none => 0

/-- The forward loop (src/error.c:93-100): starting from `current`, while
`current <= buffer.last`, return the index of the first newline found,
else none.  The caller starts this at `line + 1`. -/
def findNlFwd (buf : List Nat) (lastIdx : Nat) (c : Nat) : Option Nat :=
  if h : c ≤ lastIdx then
    if buf.getD c 0 = 10 then some c else findNlFwd buf lastIdx (c + 1)
  else none
termination_by lastIdx + 1 - c

/-- The buffer contents after the forward loop: on finding a newline at
index i the loop executes `*current = '\0'` (src/error.c:96), overwriting
that byte in the tokenizer buffer. -/
def bufAfterFwd (buf : List Nat) (lastIdx : Nat) (startC : Nat) : List Nat :=
  match findNlFwd buf lastIdx startC with
  | some i => buf.set i 0
  | none => buf

/-- What `g_string_append_printf(message, "%s\n", line)` reads: the bytes
from position p up to (excluding) the first NUL byte.  When the list
holds no NUL at or after p, the C scan does not stop at the end of the
region but continues into adjacent memory; the bytes gathered here are
then only the in-region prefix of that read (printfReads records the
first out-of-region index it touches), so statements about the emitted
line rely on this function only when a terminator exists within the
region. -/
def cString (buf : List Nat) (p : Nat) : List Nat :=
  (buf.drop p).takeWhile (fun b => b != 0)

/-- The core of get_parser_error_context: the byte string handed to %s
(first component) and the buffer contents after the in-place NUL write
(second component). -/
def parser_context_core (buf : List Nat) (lastIdx ptr : Nat) : List Nat × List Nat :=
  let ls := lineStart buf ptr
  let buf2 := bufAfterFwd buf lastIdx (ls + 1)
  (cString buf2 ls, buf2)

/-- Bytes rendered as a string for message assembly. -/
def bytesToString (l : List Nat) : String :=
  String.mk (l.map Char.ofNat)

/-- get_parser_error_context (src/error.c:75-107): the returned message is
the located line, a newline, and the caret marker at the problem-mark
column. -/
def get_parser_error_context (buf : List Nat) (lastIdx ptr problemCol : Nat) : String :=
  bytesToString (parser_context_core buf lastIdx ptr).1 ++ "\n" ++ write_error_marker problemCol

/-! ### Instrumentation: the buffer indices read by get_parser_error_context -/

/-- Indices read by the backward loop: it decrements `current` and then
dereferences it, stopping after a newline. -/
def backScanReads (buf : List Nat) : Nat → List Nat
  | 0 => []
  | c + 1 => c :: (if buf.getD c 0 = 10 then [] else backScanReads buf c)

/-- Indices read by the forward loop. -/
def fwdScanReads (buf : List Nat) (lastIdx : Nat) (c : Nat) : List Nat :=
  if h : c ≤ lastIdx then
    c :: (if buf.getD c 0 = 10 then [] else fwdScanReads buf lastIdx (c + 1))
  else []
termination_by lastIdx + 1 - c

/-- Indices read by the %s formatting of `line`: every byte of the emitted
string plus the terminator position that stops the scan.  (When no NUL is
ever found this underestimates the real C read, which continues further.) -/
def printfReads (buf : List Nat) (p : Nat) : List Nat :=
  List.range' p ((cString buf p).length + 1)

/-- All buffer indices read by get_parser_error_context. -/
def parserContextReads (buf : List Nat) (lastIdx ptr : Nat) : List Nat :=
  backScanReads buf ptr ++ fwdScanReads buf lastIdx (lineStart buf ptr + 1) ++
    printfReads (bufAfterFwd buf lastIdx (lineStart buf ptr + 1)) (lineStart buf ptr)

/-! ## Heuristic classifier and parser_error (src/error.c:109-148) -/

/-- The state of the yaml parser as read by parser_error: the scan buffer
(bytes, last index, current pointer), the problem mark, the problem
description, the token_available flag, and whether the tokenizer state is
YAML_PARSE_BLOCK_MAPPING_KEY_STATE. -/
structure YamlParser where
  bufBytes : List Nat
  bufLast : Nat
  bufPtr : Nat
  problemLine : Nat
  problemCol : Nat
  problem : String
  tokenAvailable : Bool
  stateIsBlockMappingKey : Bool

/-- The four diagnostic categories emitted by parser_error. -/
inductive ParserCategory where
  | TabIndentation
  | UnsupportedAlias
  | InconsistentIndentation
  | GenericSyntaxError
deriving DecidableEq, Repr

/-- The if/else-if chain of parser_error (src/error.c:114-144):
tab at the current pointer; else space-or-NUL with no token available;
else block-mapping-key state; else the generic branch. -/
def parser_error_category (p : YamlParser) : ParserCategory :=
  if p.bufBytes.getD p.bufPtr 0 = 9 then .TabIndentation
  else if (p.bufBytes.getD p.bufPtr 0 = 32 ∨ p.bufBytes.getD p.bufPtr 0 = 0) ∧
          p.tokenAvailable = false then .UnsupportedAlias
  else if p.stateIsBlockMappingKey = true then .InconsistentIndentation
  else .GenericSyntaxError

/-- The category-specific text interpolated into the message: the three
fixed texts, or the tokenizer problem string verbatim in the generic
branch. -/
def categoryText (p : YamlParser) : ParserCategory → String
  | .TabIndentation => "tabs are not allowed for indent"
  | .UnsupportedAlias => "aliases are not supported"
  | .InconsistentIndentation => "inconsistent indentation"
  | .GenericSyntaxError => p.problem

/-- parser_error (src/error.c:109-148).  All four branches share the shape
`%s:%zu:%zu: Invalid YAML: <text>:\n%s` with the 1-based mark position and
the buffer-locator context; a NULL yaml name becomes "(unnamed file)".
Returns the populated error and the C return value FALSE. -/
def parser_error (p : YamlParser) (yaml : Option String) : GErr × Bool :=
  let error_context := get_parser_error_context p.bufBytes p.bufLast p.bufPtr p.problemCol
  let y := yaml.getD "(unnamed file)"
  let msg := y ++ ":" ++ toString (p.problemLine + 1) ++ ":" ++ toString (p.problemCol + 1) ++
      ": Invalid YAML: " ++ categoryText p (parser_error_category p) ++ ":\n" ++ error_context
  ({ domain := .parserError, code := .invalidYaml, message := msg }, false)

/-! ## File line locator (get_syntax_error_context, src/error.c:45-73)

The opened stream is modelled as the list of the file's lines; a read past
the end of the stream returns none (g_data_input_stream_read_line returns
NULL at end of stream). -/

/-- The read loop (src/error.c:60-63): each iteration frees the previous
line and overwrites it with the next read; the loop does not stop at end
of stream, so reads past it leave `line = NULL`. -/
def readLineLoop : List String → Nat → Option String → Option String
  | _, 0, line => line
  | [], n + 1, _ => readLineLoop [] n none
  | l :: rest, n + 1, _ => readLineLoop rest n (some l)

/-- glib printf renders a NULL %s argument as "(null)". -/
def renderLine : Option String → String
  | some s => s
  | none => "(null)"

/-- get_syntax_error_context (src/error.c:45-73), with the file already
opened into its list of lines: perform line_num + 1 sequential reads,
then emit `%s\n` of the final line followed by the caret marker. -/
def get_file_error_context (fileLines : List String) (line_num column : Nat) : String :=
  renderLine (readLineLoop fileLines (line_num + 1) none) ++ "\n" ++ write_error_marker column

/-! ## yaml_error (src/error.c:153-182) -/

/-- yaml_error: `node` carries the start-mark (line, column) when present,
`filepath` is npp->current.filepath, `fileLines` the contents of that
file, `s` the already-interpolated message.  Three variants, as in the C
chain: node and filepath known; filepath known; neither.  Returns the
populated error and the C return value FALSE. -/
def yaml_error (filepath : Option String) (node : Option (Nat × Nat))
    (fileLines : List String) (s : String) : GErr × Bool :=
  match node, filepath with
  | some (l, c), some path =>
    let error_context := get_file_error_context fileLines l c
    ({ domain := .parserError, code := .invalidConfig,
       message := path ++ ":" ++ toString (l + 1) ++ ":" ++ toString (c + 1) ++
         ": Error in network definition: " ++ s ++ "\n" ++ error_context }, false)
  | _, some path =>
    ({ domain := .validationError, code := .configValidation,
       message := path ++ ": Error in network definition: " ++ s }, false)
  | _, none =>
    ({ domain := .validationError, code := .configGeneric,
       message := "Error in network definition: " ++ s }, false)

/-! ## The cross-boundary error API (src/error.c:184-200) -/

/-- Modelled from the spec: netplan_copy_string is defined in src/util.c,
which is not part of this fragment.  Per the spec (section 4.6), it copies
up to `capacity` bytes of the owned message into the caller-supplied
destination, truncating safely, and returns the number of bytes written.
The destination buffer is the byte list `dest`; bytes beyond the written
region keep their previous contents. -/
def netplan_copy_string (message dest : List Nat) (capacity : Nat) : List Nat × Nat :=
  let written := min message.length capacity
  (message.take written ++ dest.drop written, written)

/-- netplan_error_message (src/error.c:190-194): delegates to
netplan_copy_string on the handle's message. -/
def netplan_error_message (message dest : List Nat) (capacity : Nat) : List Nat × Nat :=
  netplan_copy_string message dest capacity

/-- netplan_error_code (src/error.c:196-200): the 32-bit domain and code
of the handle combined as `(uint64_t)domain << 32 | (uint64_t)code`. -/
def netplan_error_code (domain code : Nat) : Nat :=
  (domain <<< 32) ||| code

/-! ## Helper lemmas -/

theorem readLineLoop_getElem? (ls : List String) :
    ∀ (n : Nat) (acc : Option String), readLineLoop ls (n + 1) acc = ls[n]? := by
  induction ls with
  | nil =>
    intro n acc
    induction n generalizing acc with
    | zero => rfl
    | succ m ih =>
      have step : readLineLoop [] (m + 2) acc = readLineLoop [] (m + 1) none := rfl
      rw [step, ih none]
      simp
  | cons x xs ih =>
    intro n acc
    cases n with
    | zero => simp [readLineLoop]
    | succ m =>
      have step : readLineLoop (x :: xs) (m + 2) acc = readLineLoop xs (m + 1) (some x) := rfl
      rw [step, ih m (some x), List.getElem?_cons_succ]

theorem getD_drop (l : List Nat) : ∀ (n m d : Nat), (l.drop n).getD m d = l.getD (n + m) d := by
  induction l with
  | nil => intro n m d; simp [List.drop_nil]
  | cons x xs ih =>
    intro n m d
    match n with
    | 0 => simp
    | k + 1 =>
      have h1 : (k + 1) + m = (k + m) + 1 := by omega
      rw [List.drop_succ_cons, ih k m d, h1]
      rfl

theorem takeWhile_nz_all (l : List Nat) (h : ∀ b ∈ l, b ≠ 0) :
    l.takeWhile (fun b => b != 0) = l := by
  induction l with
  | nil => rfl
  | cons x xs ih =>
    have hx : x ≠ 0 := h x (List.mem_cons_self x xs)
    rw [List.takeWhile_cons_of_pos (by simpa using hx)]
    rw [ih (fun b hb => h b (List.mem_cons_of_mem x hb))]

theorem takeWhile_nz_set (l : List Nat) :
    ∀ (k : Nat), k < l.length → (∀ b ∈ l, b ≠ 0) →
      (l.set k 0).takeWhile (fun b => b != 0) = l.take k := by
  induction l with
  | nil => intro k hk _; exact absurd hk (by simp)
  | cons x xs ih =>
    intro k hk hnz
    match k with
    | 0 =>
      rw [List.set_cons_zero]
      rw [List.takeWhile_cons_of_neg (by simp)]
      rfl
    | j + 1 =>
      have hx : x ≠ 0 := hnz x (List.mem_cons_self x xs)
      rw [List.set_cons_succ]
      rw [List.takeWhile_cons_of_pos (by simpa using hx)]
      rw [ih j (by simpa using hk) (fun b hb => hnz b (List.mem_cons_of_mem x hb))]
      rfl

theorem takeWhile_nz_length_le (l : List Nat) :
    ∀ (k : Nat), l.getD k 0 = 0 → (l.takeWhile (fun b => b != 0)).length ≤ k := by
  induction l with
  | nil => intro k _; simp
  | cons x xs ih =>
    intro k hk
    match k with
    | 0 =>
      have hx : x = 0 := hk
      rw [List.takeWhile_cons_of_neg (by simp [hx])]
      simp
    | j + 1 =>
      by_cases hx : x = 0
      · rw [List.takeWhile_cons_of_neg (by simp [hx])]
        simp
      · rw [List.takeWhile_cons_of_pos (by simpa using hx)]
        have := ih j hk
        simpa using Nat.succ_le_succ this

theorem findNlBack_some (buf : List Nat) :
    ∀ (p c : Nat), findNlBack buf p = some c →
      buf.getD c 0 = 10 ∧ c < p ∧ ∀ j, c < j → j < p → buf.getD j 0 ≠ 10 := by
  intro p
  induction p with
  | zero => intro c h; exact absurd h (by simp [findNlBack])
  | succ q ih =>
    intro c h
    rw [findNlBack] at h
    by_cases hb : buf.getD q 0 = 10
    · rw [if_pos hb] at h
      cases h
      exact ⟨hb, Nat.lt_succ_self q, fun j h1 h2 => absurd (Nat.lt_of_lt_of_le h1 (Nat.lt_succ_iff.mp h2)) (Nat.lt_irrefl _)⟩
    · rw [if_neg hb] at h
      obtain ⟨h10, hlt, hmax⟩ := ih c h
      refine ⟨h10, Nat.lt_succ_of_lt hlt, fun j h1 h2 => ?_⟩
      rcases Nat.lt_succ_iff_lt_or_eq.mp h2 with h3 | h3
      · exact hmax j h1 h3
      · rw [h3]; exact hb

theorem findNlBack_none (buf : List Nat) :
    ∀ (p : Nat), findNlBack buf p = none → ∀ j, j < p → buf.getD j 0 ≠ 10 := by
  intro p
  induction p with
  | zero => intro _ j hj; omega
  | succ q ih =>
    intro h j hj
    rw [findNlBack] at h
    by_cases hb : buf.getD q 0 = 10
    · rw [if_pos hb] at h; cases h
    · rw [if_neg hb] at h
      rcases Nat.lt_succ_iff_lt_or_eq.mp hj with h3 | h3
      · exact ih h j h3
      · rw [h3]; exact hb

theorem lineStart_none (buf : List Nat) (ptr : Nat) (h : findNlBack buf ptr = none) :
    lineStart buf ptr = 0 := by
  unfold lineStart
  rw [h]

theorem lineStart_some (buf : List Nat) (ptr c : Nat) (h : findNlBack buf ptr = some c) :
    lineStart buf ptr = if c = 0 then 0 else c + 1 := by
  unfold lineStart
  rw [h]

theorem findNlFwd_some (buf : List Nat) (lastIdx : Nat) (s i : Nat)
    (h : findNlFwd buf lastIdx s = some i) :
    s ≤ i ∧ i ≤ lastIdx ∧ buf.getD i 0 = 10 ∧ ∀ j, s ≤ j → j < i → buf.getD j 0 ≠ 10 := by
  rw [findNlFwd] at h
  by_cases hs : s ≤ lastIdx
  · rw [dif_pos hs] at h
    by_cases hb : buf.getD s 0 = 10
    · rw [if_pos hb] at h
      cases h
      exact ⟨Nat.le_refl _, hs, hb, fun j h1 h2 => by omega⟩
    · rw [if_neg hb] at h
      obtain ⟨h1, h2, h3, h4⟩ := findNlFwd_some buf lastIdx (s + 1) i h
      refine ⟨by omega, h2, h3, fun j hj1 hj2 => ?_⟩
      by_cases hjs : j = s
      · rw [hjs]; exact hb
      · exact h4 j (by omega) hj2
  · rw [dif_neg hs] at h; cases h
termination_by lastIdx + 1 - s
decreasing_by omega

theorem findNlFwd_none (buf : List Nat) (lastIdx : Nat) (s : Nat)
    (h : findNlFwd buf lastIdx s = none) :
    ∀ j, s ≤ j → j ≤ lastIdx → buf.getD j 0 ≠ 10 := by
  intro j hj1 hj2
  rw [findNlFwd] at h
  by_cases hs : s ≤ lastIdx
  · rw [dif_pos hs] at h
    by_cases hb : buf.getD s 0 = 10
    · rw [if_pos hb] at h; cases h
    · rw [if_neg hb] at h
      by_cases hjs : j = s
      · rw [hjs]; exact hb
      · exact findNlFwd_none buf lastIdx (s + 1) h j (by omega) hj2
  · omega
termination_by lastIdx + 1 - s
decreasing_by omega

theorem fwdScanReads_le (buf : List Nat) (lastIdx : Nat) (s : Nat) :
    ∀ i ∈ fwdScanReads buf lastIdx s, s ≤ i ∧ i ≤ lastIdx := by
  intro i hi
  rw [fwdScanReads] at hi
  by_cases hs : s ≤ lastIdx
  · rw [dif_pos hs] at hi
    rcases List.mem_cons.mp hi with h | h
    · omega
    · by_cases hb : buf.getD s 0 = 10
      · rw [if_pos hb] at h; cases h
      · rw [if_neg hb] at h
        have := fwdScanReads_le buf lastIdx (s + 1) i h
        omega
  · rw [dif_neg hs] at hi; cases hi
termination_by lastIdx + 1 - s
decreasing_by omega

theorem backScanReads_lt (buf : List Nat) :
    ∀ (p : Nat), ∀ i ∈ backScanReads buf p, i < p := by
  intro p
  induction p with
  | zero => intro i hi; cases hi
  | succ q ih =>
    intro i hi
    rw [backScanReads] at hi
    rcases List.mem_cons.mp hi with h | h
    · omega
    · by_cases hb : buf.getD q 0 = 10
      · rw [if_pos hb] at h; cases h
      · rw [if_neg hb] at h
        have := ih i h
        omega

/-! ## Claims -/

/-- C3 counterexample: a one-line file probed for target line 2.  The read
loop performs three reads; the second and third return NULL (end of
stream), so the final line is NULL and the message context renders
glib's "(null)" — not the last successfully read line "first line". -/
theorem file_locator_short_file_cex :
    readLineLoop ["first line"] (2 + 1) none = none ∧
    get_file_error_context ["first line"] 2 0 = "(null)" ++ "\n" ++ "^" := by
  constructor
  · rfl
  · rfl

/-- C3 amended: when the opened file has fewer lines than
target_line_number + 1, the loop's final read returns NULL, so the context
line placed in the message is the NULL rendering "(null)", not the last
successfully read line. -/
theorem file_locator_short_file_null (fileLines : List String) (n column : Nat)
    (h : fileLines.length < n + 1) :
    readLineLoop fileLines (n + 1) none = none ∧
    get_file_error_context fileLines n column =
      "(null)" ++ "\n" ++ write_error_marker column := by
  have hnone : readLineLoop fileLines (n + 1) none = none := by
    rw [readLineLoop_getElem? fileLines n none]
    exact List.getElem?_eq_none (by omega)
  refine ⟨hnone, ?_⟩
  rw [get_file_error_context, hnone]
  rfl

theorem file_locator_short_file_null_witness :
    (["first line"] : List String).length < 2 + 1 ∧
    (readLineLoop ["first line"] (2 + 1) none = none ∧
      get_file_error_context ["first line"] 2 7 =
        "(null)" ++ "\n" ++ write_error_marker 7) :=
  ⟨by decide, file_locator_short_file_null ["first line"] 2 7 (by decide)⟩

/-- C5: a semantic error with node position (L, C) and a known path whose
file has at least L + 1 lines yields the message
path:(L+1):(C+1): Error in network definition: msg, a newline, the
(L+1)-th line of the file (the last of L + 1 sequential reads), a newline,
and a caret line with C leading spaces. -/
theorem yaml_error_positional_message (path : String) (L C : Nat)
    (fileLines : List String) (msg : String) (h : L < fileLines.length) :
    (yaml_error (some path) (some (L, C)) fileLines msg).1.message =
      path ++ ":" ++ toString (L + 1) ++ ":" ++ toString (C + 1) ++
        ": Error in network definition: " ++ msg ++ "\n" ++
        fileLines.get ⟨L, h⟩ ++ "\n" ++
        String.mk (List.replicate C ' ') ++ "^" := by
  have hline : readLineLoop fileLines (L + 1) none = some (fileLines.get ⟨L, h⟩) := by
    rw [readLineLoop_getElem? fileLines L none]
    simp [List.getElem?_eq_getElem h, List.get_eq_getElem]
  simp only [yaml_error, get_file_error_context, hline, renderLine, write_error_marker]
  simp [String.append_assoc]

theorem yaml_error_positional_message_witness :
    (yaml_error (some "net.yaml") (some (4, 10))
        ["l1", "l2", "l3", "l4", "l5", "l6"] "boom").1.message =
      "net.yaml:5:11: Error in network definition: boom" ++ "\n" ++ "l5" ++ "\n" ++
        "          ^" := by
  rw [yaml_error_positional_message "net.yaml" 4 10
    ["l1", "l2", "l3", "l4", "l5", "l6"] "boom" (by decide)]
  rfl

/-- C6: without a node position, a known path gives exactly
path: Error in network definition: msg in the validation domain with the
config-validation subcode and no context block; with neither position nor
path, exactly Error in network definition: msg with the generic subcode. -/
theorem yaml_error_no_position_message (path msg : String) (fileLines : List String) :
    yaml_error (some path) none fileLines msg =
      ({ domain := .validationError, code := .configValidation,
         message := path ++ ": Error in network definition: " ++ msg }, false) ∧
    yaml_error none none fileLines msg =
      ({ domain := .validationError, code := .configGeneric,
         message := "Error in network definition: " ++ msg }, false) :=
  ⟨rfl, rfl⟩

/-- C8: for representable 32-bit domain and subcode, netplan_error_code is
the composite (domain << 32) | subcode, equal to domain * 2^32 + subcode,
and the composite round-trips: the high 32 bits recover the domain and
the low 32 bits recover the subcode. -/
theorem netplan_error_code_roundtrip (domain code : Nat)
    (hd : domain < 2 ^ 32) (hc : code < 2 ^ 32) :
    netplan_error_code domain code = domain * 2 ^ 32 + code ∧
    netplan_error_code domain code >>> 32 = domain ∧
    netplan_error_code domain code % 2 ^ 32 = code := by
  have hmod : netplan_error_code domain code % 2 ^ 32 = code := by
    apply Nat.eq_of_testBit_eq
    intro k
    simp only [netplan_error_code, Nat.testBit_mod_two_pow, Nat.testBit_or,
      Nat.testBit_shiftLeft]
    by_cases hk : k < 32
    · have h32 : ¬ (32 ≤ k) := by omega
      simp [hk, h32]
    · have hle : 2 ^ 32 ≤ 2 ^ k := Nat.pow_le_pow_right (by omega) (by omega)
      have hbit : code.testBit k = false :=
        Nat.testBit_lt_two_pow (lt_of_lt_of_le hc hle)
      simp [hk, hbit]
  have hshift : netplan_error_code domain code >>> 32 = domain := by
    apply Nat.eq_of_testBit_eq
    intro k
    simp only [netplan_error_code, Nat.testBit_shiftRight, Nat.testBit_or,
      Nat.testBit_shiftLeft]
    have h1 : 32 ≤ 32 + k := by omega
    have hle : 2 ^ 32 ≤ 2 ^ (32 + k) := Nat.pow_le_pow_right (by omega) h1
    have h2 : code.testBit (32 + k) = false :=
      Nat.testBit_lt_two_pow (lt_of_lt_of_le hc hle)
    simp [h1, h2]
  refine ⟨?_, hshift, hmod⟩
  have hdiv : netplan_error_code domain code / 2 ^ 32 = domain := by
    rw [← Nat.shiftRight_eq_div_pow]
    exact hshift
  calc netplan_error_code domain code
      = 2 ^ 32 * (netplan_error_code domain code / 2 ^ 32) +
          netplan_error_code domain code % 2 ^ 32 := (Nat.div_add_mod _ _).symm
    _ = domain * 2 ^ 32 + code := by rw [hdiv, hmod, Nat.mul_comm]

theorem netplan_error_code_roundtrip_witness :
    (3 : Nat) < 2 ^ 32 ∧ (7 : Nat) < 2 ^ 32 ∧
    (netplan_error_code 3 7 = 3 * 2 ^ 32 + 7 ∧
      netplan_error_code 3 7 >>> 32 = 3 ∧
      netplan_error_code 3 7 % 2 ^ 32 = 7) :=
  ⟨by norm_num, by norm_num,
    netplan_error_code_roundtrip 3 7 (by norm_num) (by norm_num)⟩

/-- C9: netplan_error_message writes at most capacity bytes into the
destination (every byte at index >= capacity is unchanged), and returns
a byte count equal to min(message length, capacity), hence at most
capacity. -/
theorem netplan_error_message_bounded (message dest : List Nat) (capacity : Nat) :
    (netplan_error_message message dest capacity).2 ≤ capacity ∧
    (netplan_error_message message dest capacity).2 = min message.length capacity ∧
    ∀ j, capacity ≤ j →
      (netplan_error_message message dest capacity).1.getD j 0 = dest.getD j 0 := by
  refine ⟨Nat.min_le_right _ _, rfl, ?_⟩
  intro j hj
  simp only [netplan_error_message, netplan_copy_string]
  have hwm : min message.length capacity ≤ message.length := Nat.min_le_left _ _
  have hlen : (message.take (min message.length capacity)).length =
      min message.length capacity := by
    rw [List.length_take]
    omega
  have hcap : (message.take (min message.length capacity)).length ≤ j := by
    rw [hlen]
    have := Nat.min_le_right message.length capacity
    omega
  rw [List.getD_append_right _ _ _ _ hcap, hlen, getD_drop]
  have harith : min message.length capacity + (j - min message.length capacity) = j := by
    have := Nat.min_le_right message.length capacity
    omega
  rw [harith]

theorem netplan_error_message_bounded_witness :
    (netplan_error_message
        [101, 114, 114, 111, 114, 58, 32, 98, 97, 100, 32, 99, 111, 110, 102, 105, 103, 33, 33, 33]
        [1, 2, 3, 4] 4).2 ≤ 4 ∧
    (netplan_error_message
        [101, 114, 114, 111, 114, 58, 32, 98, 97, 100, 32, 99, 111, 110, 102, 105, 103, 33, 33, 33]
        [1, 2, 3, 4] 4).2 =
      min ([101, 114, 114, 111, 114, 58, 32, 98, 97, 100, 32, 99, 111, 110, 102, 105, 103, 33, 33, 33] : List Nat).length 4 ∧
    ∀ j, 4 ≤ j →
      (netplan_error_message
          [101, 114, 114, 111, 114, 58, 32, 98, 97, 100, 32, 99, 111, 110, 102, 105, 103, 33, 33, 33]
          [1, 2, 3, 4] 4).1.getD j 0 = ([1, 2, 3, 4] : List Nat).getD j 0 :=
  netplan_error_message_bounded
    [101, 114, 114, 111, 114, 58, 32, 98, 97, 100, 32, 99, 111, 110, 102, 105, 103, 33, 33, 33]
    [1, 2, 3, 4] 4

/-- C10: both diagnostic entry points return FALSE unconditionally in
addition to populating the error, so a caller may return their result
directly as a failure indicator. -/
theorem diagnostics_return_false (p : YamlParser) (yaml : Option String)
    (filepath : Option String) (node : Option (Nat × Nat))
    (fileLines : List String) (s : String) :
    (parser_error p yaml).2 = false ∧
    (yaml_error filepath node fileLines s).2 = false := by
  refine ⟨rfl, ?_⟩
  rcases node with _ | ⟨l, c⟩ <;> rcases filepath with _ | path <;> rfl

/-- C1: the parser_error classifier selects the diagnostic category by
fixed precedence, first match wins: a tab byte at the current pointer
gives TabIndentation; otherwise a space or NUL byte with no token
available gives UnsupportedAlias; otherwise the block-mapping-key state
gives InconsistentIndentation; otherwise the tokenizer problem string is
emitted verbatim in the message.  In particular a tab byte wins even when
the state is also block-mapping-key. -/
theorem parser_error_classifier_precedence (p : YamlParser) (yaml : Option String) :
    (p.bufBytes.getD p.bufPtr 0 = 9 → parser_error_category p = .TabIndentation) ∧
    (p.bufBytes.getD p.bufPtr 0 ≠ 9 →
      (p.bufBytes.getD p.bufPtr 0 = 32 ∨ p.bufBytes.getD p.bufPtr 0 = 0) →
      p.tokenAvailable = false → parser_error_category p = .UnsupportedAlias) ∧
    (p.bufBytes.getD p.bufPtr 0 ≠ 9 →
      ¬ ((p.bufBytes.getD p.bufPtr 0 = 32 ∨ p.bufBytes.getD p.bufPtr 0 = 0) ∧
          p.tokenAvailable = false) →
      p.stateIsBlockMappingKey = true →
      parser_error_category p = .InconsistentIndentation) ∧
    (p.bufBytes.getD p.bufPtr 0 ≠ 9 →
      ¬ ((p.bufBytes.getD p.bufPtr 0 = 32 ∨ p.bufBytes.getD p.bufPtr 0 = 0) ∧
          p.tokenAvailable = false) →
      p.stateIsBlockMappingKey = false →
      (parser_error p yaml).1.message =
        yaml.getD "(unnamed file)" ++ ":" ++ toString (p.problemLine + 1) ++ ":" ++
          toString (p.problemCol + 1) ++ ": Invalid YAML: " ++ p.problem ++ ":\n" ++
          get_parser_error_context p.bufBytes p.bufLast p.bufPtr p.problemCol) ∧
    (p.bufBytes.getD p.bufPtr 0 = 9 → p.stateIsBlockMappingKey = true →
      parser_error_category p = .TabIndentation) := by
  refine ⟨?_, ?_, ?_, ?_, ?_⟩
  · intro h9
    unfold parser_error_category
    rw [if_pos h9]
  · intro h9 hsp htok
    unfold parser_error_category
    rw [if_neg h9, if_pos ⟨hsp, htok⟩]
  · intro h9 halias hbmk
    unfold parser_error_category
    rw [if_neg h9, if_neg halias, if_pos hbmk]
  · intro h9 halias hbmk
    have hcat : parser_error_category p = .GenericSyntaxError := by
      unfold parser_error_category
      rw [if_neg h9, if_neg halias, if_neg (by simp [hbmk])]
    simp only [parser_error, hcat, categoryText]
  · intro h9 _
    unfold parser_error_category
    rw [if_pos h9]

/-- A parser state with a tab byte at the pointer and the
block-mapping-key state also set. -/
def pTab : YamlParser :=
  { bufBytes := [9, 97], bufLast := 1, bufPtr := 0, problemLine := 0, problemCol := 0,
    problem := "problem text", tokenAvailable := false, stateIsBlockMappingKey := true }

/-- A parser state with a space byte at the pointer and no token
available. -/
def pAlias : YamlParser :=
  { bufBytes := [32, 97], bufLast := 1, bufPtr := 0, problemLine := 0, problemCol := 0,
    problem := "problem text", tokenAvailable := false, stateIsBlockMappingKey := true }

/-- A parser state in the block-mapping-key state whose pointer byte is
neither tab, space nor NUL. -/
def pInc : YamlParser :=
  { bufBytes := [97, 98], bufLast := 1, bufPtr := 0, problemLine := 0, problemCol := 0,
    problem := "problem text", tokenAvailable := true, stateIsBlockMappingKey := true }

/-- A parser state hitting the generic branch. -/
def pGen : YamlParser :=
  { bufBytes := [97, 98], bufLast := 1, bufPtr := 0, problemLine := 0, problemCol := 0,
    problem := "problem text", tokenAvailable := true, stateIsBlockMappingKey := false }

theorem parser_error_classifier_precedence_witness :
    parser_error_category pTab = .TabIndentation ∧
    parser_error_category pAlias = .UnsupportedAlias ∧
    parser_error_category pInc = .InconsistentIndentation ∧
    (parser_error pGen none).1.message =
      (none : Option String).getD "(unnamed file)" ++ ":" ++
        toString (pGen.problemLine + 1) ++ ":" ++ toString (pGen.problemCol + 1) ++
        ": Invalid YAML: " ++ pGen.problem ++ ":\n" ++
        get_parser_error_context pGen.bufBytes pGen.bufLast pGen.bufPtr pGen.problemCol :=
  ⟨(parser_error_classifier_precedence pTab none).2.2.2.2 rfl rfl,
   (parser_error_classifier_precedence pAlias none).2.1 (by decide) (Or.inl rfl) rfl,
   (parser_error_classifier_precedence pInc none).2.2.1 (by decide) (by decide) rfl,
   (parser_error_classifier_precedence pGen none).2.2.2.1 (by decide) (by decide) rfl⟩

/-- C2 counterexample: buffer 0x0A,a,b,c with the pointer on b.  The
nearest newline strictly before the pointer is at index 0, so the claim
says the returned text starts at index 1 and is exactly a,b,c.  The code
instead resets the line start to the buffer start (the
current <= buffer.start check fires after the break) and returns the
newline byte followed by a,b,c. -/
theorem buffer_locator_line_cex :
    (parser_context_core [10, 97, 98, 99] 3 2).1 = [10, 97, 98, 99] ∧
    (parser_context_core [10, 97, 98, 99] 3 2).1 ≠ [97, 98, 99] := by
  have h : (parser_context_core [10, 97, 98, 99] 3 2).1 = [10, 97, 98, 99] := by
    simp [parser_context_core, bufAfterFwd, lineStart, findNlBack, findNlFwd, cString]
  exact ⟨h, by rw [h]; decide⟩

/-- C2 amended: on a NUL-free buffer whose pointer is in range and whose
located line is terminated by a newline inside the buffer (some newline
sits at an index between line start + 1 and buffer last), the returned
text is the slice from ls to e, where ls is the byte after the nearest
newline strictly before the pointer except that a newline at the buffer
start yields ls = buffer start (including that newline in the text), or
the buffer start when no such newline exists; and e is the first newline
at index at least ls + 1 (a newline exactly at ls does not terminate the
text).  The forward scan overwrites that newline with NUL, which is what
ends the %s read inside the buffer; without such a newline the %s read
runs past buffer last (see the C7 counterexample) and no defined line is
produced. -/
theorem buffer_locator_line_amended (buf : List Nat) (lastIdx ptr : Nat)
    (hlen : buf.length = lastIdx + 1) (hptr : ptr ≤ lastIdx)
    (hnz : ∀ b ∈ buf, b ≠ 0)
    (hnl : ∃ j, lineStart buf ptr + 1 ≤ j ∧ j ≤ lastIdx ∧ buf.getD j 0 = 10) :
    ∃ ls e,
      (parser_context_core buf lastIdx ptr).1 = (buf.drop ls).take (e - ls) ∧
      ((ls = 0 ∧ ∀ j, j < ptr → buf.getD j 0 ≠ 10) ∨
       (ls = 0 ∧ 0 < ptr ∧ buf.getD 0 0 = 10 ∧ ∀ j, 0 < j → j < ptr → buf.getD j 0 ≠ 10) ∨
       (0 < ls ∧ ls ≤ ptr ∧ buf.getD (ls - 1) 0 = 10 ∧
         ∀ j, ls ≤ j → j < ptr → buf.getD j 0 ≠ 10)) ∧
      (ls + 1 ≤ e ∧ e ≤ lastIdx ∧ buf.getD e 0 = 10 ∧
        ∀ j, ls + 1 ≤ j → j < e → buf.getD j 0 ≠ 10) := by
  have hlsProp :
      (lineStart buf ptr = 0 ∧ ∀ j, j < ptr → buf.getD j 0 ≠ 10) ∨
      (lineStart buf ptr = 0 ∧ 0 < ptr ∧ buf.getD 0 0 = 10 ∧
        ∀ j, 0 < j → j < ptr → buf.getD j 0 ≠ 10) ∨
      (0 < lineStart buf ptr ∧ lineStart buf ptr ≤ ptr ∧
        buf.getD (lineStart buf ptr - 1) 0 = 10 ∧
        ∀ j, lineStart buf ptr ≤ j → j < ptr → buf.getD j 0 ≠ 10) := by
    cases hb : findNlBack buf ptr with
    | none =>
      left
      exact ⟨lineStart_none buf ptr hb, findNlBack_none buf ptr hb⟩
    | some c =>
      obtain ⟨h10, hlt, hmax⟩ := findNlBack_some buf ptr c hb
      by_cases hc0 : c = 0
      · right; left
        rw [lineStart_some buf ptr c hb, if_pos hc0]
        subst hc0
        exact ⟨rfl, by omega, h10, fun j h1 h2 => hmax j h1 h2⟩
      · right; right
        rw [lineStart_some buf ptr c hb, if_neg hc0]
        refine ⟨by omega, by omega, by simpa using h10,
          fun j h1 h2 => hmax j (by omega) h2⟩
  cases hf : findNlFwd buf lastIdx (lineStart buf ptr + 1) with
  | some i =>
    obtain ⟨hi1, hi2, hi3, hi4⟩ := findNlFwd_some buf lastIdx (lineStart buf ptr + 1) i hf
    refine ⟨lineStart buf ptr, i, ?_, hlsProp, ⟨hi1, hi2, hi3, hi4⟩⟩
    have hdropset : (buf.set i 0).drop (lineStart buf ptr) =
        (buf.drop (lineStart buf ptr)).set (i - lineStart buf ptr) 0 := by
      rw [List.drop_set, if_neg (by omega)]
    have hklt : i - lineStart buf ptr < (buf.drop (lineStart buf ptr)).length := by
      rw [List.length_drop]
      omega
    have hnzdrop : ∀ b ∈ buf.drop (lineStart buf ptr), b ≠ 0 :=
      fun b hb => hnz b (List.mem_of_mem_drop hb)
    simp only [parser_context_core, bufAfterFwd, hf, cString]
    rw [hdropset, takeWhile_nz_set _ _ hklt hnzdrop]
  | none =>
    obtain ⟨j, hj1, hj2, hj3⟩ := hnl
    exact absurd hj3 (findNlFwd_none buf lastIdx (lineStart buf ptr + 1) hf j hj1 hj2)

theorem buffer_locator_line_amended_witness :
    ∃ ls e,
      (parser_context_core [97, 98, 10, 99, 100, 10, 101] 6 3).1 =
        (([97, 98, 10, 99, 100, 10, 101] : List Nat).drop ls).take (e - ls) ∧
      ((ls = 0 ∧ ∀ j, j < 3 → ([97, 98, 10, 99, 100, 10, 101] : List Nat).getD j 0 ≠ 10) ∨
       (ls = 0 ∧ 0 < 3 ∧ ([97, 98, 10, 99, 100, 10, 101] : List Nat).getD 0 0 = 10 ∧
         ∀ j, 0 < j → j < 3 → ([97, 98, 10, 99, 100, 10, 101] : List Nat).getD j 0 ≠ 10) ∨
       (0 < ls ∧ ls ≤ 3 ∧ ([97, 98, 10, 99, 100, 10, 101] : List Nat).getD (ls - 1) 0 = 10 ∧
         ∀ j, ls ≤ j → j < 3 → ([97, 98, 10, 99, 100, 10, 101] : List Nat).getD j 0 ≠ 10)) ∧
      (ls + 1 ≤ e ∧ e ≤ 6 ∧ ([97, 98, 10, 99, 100, 10, 101] : List Nat).getD e 0 = 10 ∧
        ∀ j, ls + 1 ≤ j → j < e →
          ([97, 98, 10, 99, 100, 10, 101] : List Nat).getD j 0 ≠ 10) :=
  buffer_locator_line_amended [97, 98, 10, 99, 100, 10, 101] 6 3 (by decide) (by decide)
    (by decide) ⟨5, by decide, by decide, by decide⟩

/-- C4 counterexample: buffer a,0x0A,b with the pointer on a.  The
forward scan finds the newline at index 1 and overwrites it in place with
NUL, so the tokenizer buffer is written, not only read. -/
theorem buffer_locator_mutates_cex :
    (parser_context_core [97, 10, 98] 2 0).2 ≠ [97, 10, 98] ∧
    (parser_context_core [97, 10, 98] 2 0).2 = [97, 0, 98] := by
  have h : (parser_context_core [97, 10, 98] 2 0).2 = [97, 0, 98] := by
    simp [parser_context_core, bufAfterFwd, lineStart, findNlBack, findNlFwd, cString]
  exact ⟨by rw [h]; decide, h⟩

/-- C4 amended: the locator mutates at most one byte of the buffer: when
the forward scan finds a newline at an index i between line start + 1 and
buffer last, that byte is overwritten with NUL; every other byte is left
unchanged, and when no such newline exists the buffer is unchanged. -/
theorem buffer_locator_frame_amended (buf : List Nat) (lastIdx ptr : Nat) :
    (parser_context_core buf lastIdx ptr).2 = buf ∨
    ∃ i, lineStart buf ptr + 1 ≤ i ∧ i ≤ lastIdx ∧ buf.getD i 0 = 10 ∧
      (parser_context_core buf lastIdx ptr).2 = buf.set i 0 ∧
      ∀ j, j ≠ i → (parser_context_core buf lastIdx ptr).2.getD j 0 = buf.getD j 0 := by
  cases hf : findNlFwd buf lastIdx (lineStart buf ptr + 1) with
  | none =>
    left
    simp only [parser_context_core, bufAfterFwd, hf]
  | some i =>
    right
    obtain ⟨h1, h2, h3, _⟩ := findNlFwd_some buf lastIdx (lineStart buf ptr + 1) i hf
    refine ⟨i, h1, h2, h3, ?_, ?_⟩
    · simp only [parser_context_core, bufAfterFwd, hf]
    · intro j hj
      simp only [parser_context_core, bufAfterFwd, hf]
      rw [List.getD_eq_getElem?_getD, List.getD_eq_getElem?_getD,
        List.getElem?_set_ne (Ne.symm hj)]

theorem buffer_locator_frame_amended_witness :
    (parser_context_core [97, 10, 98] 2 0).2 = [97, 10, 98] ∨
    ∃ i, lineStart [97, 10, 98] 0 + 1 ≤ i ∧ i ≤ 2 ∧
      ([97, 10, 98] : List Nat).getD i 0 = 10 ∧
      (parser_context_core [97, 10, 98] 2 0).2 = ([97, 10, 98] : List Nat).set i 0 ∧
      ∀ j, j ≠ i →
        (parser_context_core [97, 10, 98] 2 0).2.getD j 0 =
          ([97, 10, 98] : List Nat).getD j 0 :=
  buffer_locator_frame_amended [97, 10, 98] 2 0

/-- C7 counterexample: buffer a,b,c with no newline and no NUL, pointer at
the buffer start.  The forward scan finds no terminator and writes
nothing, so the %s formatting of the line scans for a NUL beyond
buffer last: index 3 is read although buffer last is index 2. -/
theorem buffer_locator_oob_read_cex :
    ¬ (∀ i ∈ parserContextReads [97, 98, 99] 2 0, i ≤ 2) := by
  intro h
  have hr : parserContextReads [97, 98, 99] 2 0 = [1, 2, 0, 1, 2, 3] := by
    simp [parserContextReads, lineStart, findNlBack, backScanReads, fwdScanReads,
      bufAfterFwd, findNlFwd, printfReads, cString, List.range']
  have h3 := h 3 (by rw [hr]; decide)
  omega

/-- C7 amended: the backward and forward scan loops only read indices
between the buffer start and buffer last; the final %s read of the
located line also stays within bounds provided the region holds a
terminator for it: a NUL byte at or after the line start, or a newline at
or after line start + 1.  (Without such a terminator, as in the
counterexample, the %s read runs past buffer last.) -/
theorem buffer_locator_reads_amended (buf : List Nat) (lastIdx ptr : Nat)
    (hlen : buf.length = lastIdx + 1) (hptr : ptr ≤ lastIdx)
    (hterm : ∃ j, lineStart buf ptr ≤ j ∧ j ≤ lastIdx ∧
      (buf.getD j 0 = 0 ∨ (lineStart buf ptr + 1 ≤ j ∧ buf.getD j 0 = 10))) :
    ∀ i ∈ parserContextReads buf lastIdx ptr, i ≤ lastIdx := by
  intro i hi
  rw [parserContextReads] at hi
  rcases List.mem_append.mp hi with hi2 | hpr
  · rcases List.mem_append.mp hi2 with hbk | hfw
    · have := backScanReads_lt buf ptr i hbk
      omega
    · exact (fwdScanReads_le buf lastIdx (lineStart buf ptr + 1) i hfw).2
  · -- The printf read: find an in-bounds NUL in the post-write buffer.
    have hnul : ∃ jz, lineStart buf ptr ≤ jz ∧ jz ≤ lastIdx ∧
        (bufAfterFwd buf lastIdx (lineStart buf ptr + 1)).getD jz 0 = 0 := by
      obtain ⟨j, hj1, hj2, hj3⟩ := hterm
      rcases hj3 with hz | ⟨hj4, hnl⟩
      · cases hf : findNlFwd buf lastIdx (lineStart buf ptr + 1) with
        | none =>
          refine ⟨j, hj1, hj2, ?_⟩
          simp only [bufAfterFwd, hf]
          exact hz
        | some i0 =>
          obtain ⟨hi01, hi02, _, _⟩ := findNlFwd_some buf lastIdx (lineStart buf ptr + 1) i0 hf
          by_cases hji : j = i0
          · refine ⟨j, hj1, hj2, ?_⟩
            simp only [bufAfterFwd, hf, hji]
            rw [List.getD_eq_getElem?_getD, List.getElem?_set_self (by omega)]
            rfl
          · refine ⟨j, hj1, hj2, ?_⟩
            simp only [bufAfterFwd, hf]
            rw [List.getD_eq_getElem?_getD, List.getElem?_set_ne (Ne.symm hji),
              ← List.getD_eq_getElem?_getD]
            exact hz
      · cases hf : findNlFwd buf lastIdx (lineStart buf ptr + 1) with
        | none =>
          exact absurd hnl (findNlFwd_none buf lastIdx (lineStart buf ptr + 1) hf j hj4 hj2)
        | some i0 =>
          obtain ⟨hi01, hi02, _, _⟩ := findNlFwd_some buf lastIdx (lineStart buf ptr + 1) i0 hf
          refine ⟨i0, by omega, hi02, ?_⟩
          simp only [bufAfterFwd, hf]
          rw [List.getD_eq_getElem?_getD, List.getElem?_set_self (by omega)]
          rfl
    obtain ⟨jz, hz1, hz2, hz3⟩ := hnul
    have hlenb : (cString (bufAfterFwd buf lastIdx (lineStart buf ptr + 1))
        (lineStart buf ptr)).length ≤ jz - lineStart buf ptr := by
      apply takeWhile_nz_length_le
      rw [getD_drop]
      have : lineStart buf ptr + (jz - lineStart buf ptr) = jz := by omega
      rw [this]
      exact hz3
    simp only [printfReads] at hpr
    obtain ⟨k, hk1, hk2⟩ := List.mem_range'.mp hpr
    omega

theorem buffer_locator_reads_amended_witness :
    ([97, 98, 10, 99, 100] : List Nat).length = 4 + 1 ∧
    (2 : Nat) ∈ parserContextReads [97, 98, 10, 99, 100] 4 0 ∧
    (2 : Nat) ≤ 4 := by
  have hr : parserContextReads [97, 98, 10, 99, 100] 4 0 = [1, 2, 0, 1, 2] := by
    simp [parserContextReads, lineStart, findNlBack, backScanReads, fwdScanReads,
      bufAfterFwd, findNlFwd, printfReads, cString, List.range']
  have hmem : (2 : Nat) ∈ parserContextReads [97, 98, 10, 99, 100] 4 0 := by
    rw [hr]; decide
  exact ⟨by decide, hmem,
    buffer_locator_reads_amended [97, 98, 10, 99, 100] 4 0 (by decide) (by decide)
      ⟨2, by decide, by decide, Or.inr ⟨by decide, by decide⟩⟩ 2 hmem⟩

end NetplanErrorC
